import Mathlib

/-
Verification of the generic_rest document server core (src/index.js):
data model (JSON objects as association lists), the query engine
(filter / sort / paginate), the write-path identifier resolution, and the
create / replace / patch merge semantics.  JavaScript strings are handled
through their character lists; JS numbers are modelled as exact decimals.
-/

namespace GenericRest

/-- Exact decimal number `m · 10 ^ e`, the value class of every JSON
numeric literal; used in place of binary floating point, whose rounding
the verified properties do not depend on. -/
structure Dec where
  m : Int
  e : Int
deriving DecidableEq

/-- Decimal comparison by cross-multiplication with the needed power of
ten, so the kernel can evaluate it. -/
def decLE (a b : Dec) : Bool :=
  if a.e ≤ b.e then decide (a.m ≤ b.m * 10 ^ (b.e - a.e).toNat)
  else decide (a.m * 10 ^ (a.e - b.e).toNat ≤ b.m)

/-- Strict decimal comparison. -/
def decLT (a b : Dec) : Bool :=
  if a.e ≤ b.e then decide (a.m < b.m * 10 ^ (b.e - a.e).toNat)
  else decide (a.m * 10 ^ (a.e - b.e).toNat < b.m)

/-- JSON values stored in a document field.  Numbers are modelled as
exact decimals; nested objects and arrays are not needed by the
properties verified here. -/
inductive JSValue where
  | str : String → JSValue
  | num : Dec → JSValue
  | bool : Bool → JSValue
  | null : JSValue
deriving DecidableEq

/-- A JSON object: ordered association list of fields, as JS objects are. -/
abbrev Obj := List (String × JSValue)

/-- Property lookup: first binding of the key (JS objects have unique keys). -/
def Obj.get (o : Obj) (k : String) : Option JSValue :=
  (o.find? (fun p => decide (p.1 = k))).map (fun p => p.2)

/-- Property assignment, JS semantics: overwrite in place when the key is
present (keeping its position), append otherwise. -/
def Obj.set (o : Obj) (k : String) (v : JSValue) : Obj :=
  if o.any (fun p => decide (p.1 = k)) then
    o.map (fun p => if p.1 = k then (k, v) else p)
  else o ++ [(k, v)]

/-- Object spread: start from `a` and assign every binding of `b` in
order; models a JS spread such as one object literal built from two. -/
def Obj.spread (a b : Obj) : Obj :=
  b.foldl (fun acc p => acc.set p.1 p.2) a

/-- Well-formed object: keys occur at most once (what JSON.parse and JS
object literals produce). -/
def Obj.wf (o : Obj) : Prop := (o.map Prod.fst).Nodup

instance (o : Obj) : Decidable (Obj.wf o) :=
  List.nodupDecidable (o.map Prod.fst)

/-- Lowercasing, character by character; models String.prototype.toLowerCase. -/
def lowerStr (s : String) : String := String.mk (s.data.map Char.toLower)

/-- JS String() coercion of a stored value.  Integral numbers render
exactly as in JS; a non-integral decimal falls back to mantissa-exponent
form, on whose rendering no verified property depends. -/
def jsString : JSValue → String
  | JSValue.str s => s
  | JSValue.num d =>
    if 0 ≤ d.e then toString (d.m * 10 ^ d.e.toNat)
    else toString d.m ++ "e" ++ toString d.e
  | JSValue.bool b => if b then "true" else "false"
  | JSValue.null => "null"

/-- Whitespace skipped by JS numeric parsing (common forms). -/
def isWs (c : Char) : Bool := c = ' ' ∨ c = '\t' ∨ c = '\n' ∨ c = '\r'

/-- Numeric value of a digit character. -/
def digitVal (c : Char) : ℕ := c.toNat - '0'.toNat

/-- Value of a digit sequence read in base 10. -/
def natOfDigits (l : List Char) : ℕ :=
  l.foldl (fun a c => a * 10 + digitVal c) 0

/-- Decimal from an integer digit string and a fraction digit string. -/
def decOfParts (ip fs : List Char) : Dec :=
  ⟨(natOfDigits ip : Int) * 10 ^ fs.length + (natOfDigits fs : Int),
   -(fs.length : Int)⟩

/-- Unsigned decimal significand: `digits [. digits?]` or `. digits`;
returns the value and the unconsumed remainder, or none when no valid
significand starts the input. -/
def decCore (l : List Char) : Option (Dec × List Char) :=
  let p := l.span (fun c => c.isDigit)
  if p.1.isEmpty then
    match p.2 with
    | '.' :: r2 =>
      let q := r2.span (fun c => c.isDigit)
      if q.1.isEmpty then none
      else some (decOfParts [] q.1, q.2)
    | _ => none
  else
    match p.2 with
    | '.' :: r2 =>
      let q := r2.span (fun c => c.isDigit)
      some (decOfParts p.1 q.1, q.2)
    | _ => some (decOfParts p.1 [], p.2)

/-- Optional exponent part `e|E [+|-] digits`; consumed only when at least
one digit follows, as the longest-valid-prefix rule requires. -/
def expCore (l : List Char) : Int × List Char :=
  match l with
  | c :: r =>
    if c = 'e' ∨ c = 'E' then
      match r with
      | '+' :: r2 =>
        let q := r2.span (fun c2 => c2.isDigit)
        if q.1.isEmpty then (0, l) else ((natOfDigits q.1 : Int), q.2)
      | '-' :: r2 =>
        let q := r2.span (fun c2 => c2.isDigit)
        if q.1.isEmpty then (0, l) else (-(natOfDigits q.1 : Int), q.2)
      | _ =>
        let q := r.span (fun c2 => c2.isDigit)
        if q.1.isEmpty then (0, l) else ((natOfDigits q.1 : Int), q.2)
    else (0, l)
  | [] => (0, [])

/-- Signed decimal literal with optional exponent, longest valid prefix. -/
def parseSigned (l : List Char) : Option (Dec × List Char) :=
  match l with
  | '+' :: r =>
    (decCore r).map (fun p => let e := expCore p.2; (⟨p.1.m, p.1.e + e.1⟩, e.2))
  | '-' :: r =>
    (decCore r).map (fun p => let e := expCore p.2; (⟨-p.1.m, p.1.e + e.1⟩, e.2))
  | _ =>
    (decCore l).map (fun p => let e := expCore p.2; (⟨p.1.m, p.1.e + e.1⟩, e.2))

/-- JS parseFloat: skip leading whitespace, read the longest decimal
prefix; none models NaN.  Infinity literals and hex forms are outside the
model. -/
def jsParseFloat (s : String) : Option Dec :=
  (parseSigned (s.data.dropWhile isWs)).map (fun p => p.1)

/-- JS ToNumber on a string: whole-string decimal parse after trimming;
the empty or all-whitespace string is 0, anything else unparsable is NaN. -/
def jsToNumberStr (s : String) : Option Dec :=
  let l := ((s.data.dropWhile isWs).reverse.dropWhile isWs).reverse
  if l.isEmpty then some ⟨0, 0⟩
  else
    match parseSigned l with
    | some (q, []) => some q
    | _ => none

/-- JS ToNumber on a stored value; none models NaN. -/
def toNumber : JSValue → Option Dec
  | JSValue.str s => jsToNumberStr s
  | JSValue.num d => some d
  | JSValue.bool b => some (if b then ⟨1, 0⟩ else ⟨0, 0⟩)
  | JSValue.null => some ⟨0, 0⟩

/-- The JS `<` relational comparison on two stored values. -/
def jsLt (a b : JSValue) : Bool :=
  match a, b with
  | JSValue.str sa, JSValue.str sb => decide (sa < sb)
  | _, _ =>
    match toNumber a, toNumber b with
    | some x, some y => decLT x y
    | _, _ => false

/-- JS parseInt in base 10: skip whitespace, optional sign, digit prefix;
none models NaN. -/
def jsParseInt (s : String) : Option Int :=
  let l := s.data.dropWhile isWs
  match l with
  | '+' :: r =>
    let q := r.span (fun c => c.isDigit)
    if q.1.isEmpty then none else some ((natOfDigits q.1 : Int))
  | '-' :: r =>
    let q := r.span (fun c => c.isDigit)
    if q.1.isEmpty then none else some (-(natOfDigits q.1 : Int))
  | _ =>
    let q := l.span (fun c => c.isDigit)
    if q.1.isEmpty then none else some ((natOfDigits q.1 : Int))

/-- Split a character list on a separator character, keeping empty pieces,
as JS String.prototype.split does. -/
def splitOnChar (sep : Char) : List Char → List (List Char)
  | [] => [[]]
  | c :: t =>
    if c = sep then [] :: splitOnChar sep t
    else
      match splitOnChar sep t with
      | [] => [[c]]
      | s :: rest => (c :: s) :: rest

/-- Three-way lexicographic comparison of character lists by code point;
models the locale comparison used for string sorting. -/
def listCmp : List Char → List Char → Int
  | [], [] => 0
  | [], _ :: _ => -1
  | _ :: _, [] => 1
  | a :: as_, b :: bs =>
    if a < b then -1 else if b < a then 1 else listCmp as_ bs

/-- String comparison used by the sort comparator (String.localeCompare,
modelled code-point-wise). -/
def localeCompare (a b : String) : Int := listCmp a.data b.data

/-- One token of the regex built from the wildcard filter: a literal
character, or the dot, which matches a single arbitrary character. -/
inductive RTok where
  | lit : Char → RTok
  | dot : RTok
deriving DecidableEq

/-- Tokenization of one pattern character: the dot keeps its regex
meaning of "any single character"; every other character is read as a
literal.  The remaining regex metacharacters, which the program's regex
constructor would also interpret (or reject, surfacing a 500), are
outside the model; `plainGlobChar` names the covered alphabet. -/
def rtokOf (c : Char) : RTok := if c = '.' then RTok.dot else RTok.lit c

/-- A pattern character the model covers faithfully: anything that is
not one of the regex metacharacters left uninterpreted here (star and
dot are interpreted and therefore covered). -/
def plainGlobChar (c : Char) : Bool :=
  !(c = '\\' || c = '^' || c = '$' || c = '+' || c = '?' || c = '(' ||
    c = ')' || c = '[' || c = ']' || c = '\x7b' || c = '\x7d' || c = '|')

/-- A JS line terminator, which the dot of a regex without the dot-all
flag refuses to match; the model lets dot match any character, which is
faithful for values containing no line terminator. -/
def isLineTerm (c : Char) : Bool :=
  c = '\n' || c = '\r' || c = '\u2028' || c = '\u2029'

/-- Token segments of the wildcard filter: split on the stars (each star
became dot-star in the built regex) and tokenize each piece. -/
def globTokens (l : List Char) : List (List RTok) :=
  (splitOnChar '*' l).map (List.map rtokOf)

/-- Match a token segment against a prefix of `w`, returning the
remainder; each token consumes exactly one character. -/
def segPrefixMatch : List RTok → List Char → Option (List Char)
  | [], w => some w
  | RTok.lit c :: ts, x :: xs => if x = c then segPrefixMatch ts xs else none
  | RTok.lit _ :: _, [] => none
  | RTok.dot :: ts, _ :: xs => segPrefixMatch ts xs
  | RTok.dot :: _, [] => none

/-- Remainder of `w` just after the first match of the token segment
`s`, if any; models where an unanchored regex search resumes. -/
def firstSegTail (s : List RTok) : List Char → Option (List Char)
  | [] => segPrefixMatch s []
  | c :: t =>
    match segPrefixMatch s (c :: t) with
    | some r => some r
    | none => firstSegTail s t

/-- Unanchored test of the regex `s0.*s1.*…sn` built from the wildcard
filter: find each token segment in turn, left to right.  This is the
shallow embedding of building a regex from the pattern with each star
turned into dot-star and calling its unanchored test method, on the
alphabet covered by `rtokOf`. -/
def matchRSegs : List (List RTok) → List Char → Bool
  | [], _ => true
  | s :: rest, w =>
    match firstSegTail s w with
    | none => false
    | some w2 => matchRSegs rest w2

/-- The filter predicate applied to one document for one query entry,
from the list handler: reserved keys always pass; a missing field fails;
then the operator chain `>=`, `<=`, `>`, `<`, `!=`, wildcard, exact. -/
def evalFilter (item : Obj) (key value : String) : Bool :=
  if key = "_limit" ∨ key = "_offset" ∨ key = "_sort" ∨ key = "_order" then true
  else
    match item.get key with
    | none => false
    | some itemValue =>
      let itemValueStr := lowerStr (jsString itemValue)
      let filterValueStr := lowerStr value
      if filterValueStr.data.take 2 = ['>', '='] then
        match jsParseFloat (String.mk (filterValueStr.data.drop 2)),
              jsParseFloat (jsString itemValue) with
        | some f, some x => decLE f x
        | _, _ => false
      else if filterValueStr.data.take 2 = ['<', '='] then
        match jsParseFloat (String.mk (filterValueStr.data.drop 2)),
              jsParseFloat (jsString itemValue) with
        | some f, some x => decLE x f
        | _, _ => false
      else if filterValueStr.data.take 1 = ['>'] then
        match jsParseFloat (String.mk (filterValueStr.data.drop 1)),
              jsParseFloat (jsString itemValue) with
        | some f, some x => decLT f x
        | _, _ => false
      else if filterValueStr.data.take 1 = ['<'] then
        match jsParseFloat (String.mk (filterValueStr.data.drop 1)),
              jsParseFloat (jsString itemValue) with
        | some f, some x => decLT x f
        | _, _ => false
      else if filterValueStr.data.take 2 = ['!', '='] then
        decide (itemValueStr.data ≠ filterValueStr.data.drop 2)
      else if filterValueStr.data.contains '*' then
        matchRSegs (globTokens filterValueStr.data) itemValueStr.data
      else decide (itemValueStr = filterValueStr)

/-- Query parameters: association list of raw string values. -/
abbrev Params := List (String × String)

/-- First value bound to a parameter name, if any. -/
def getParam (params : Params) (k : String) : Option String :=
  (params.find? (fun p => p.1 == k)).map (fun p => p.2)

/-- JS truthiness of an optional string parameter: present and non-empty. -/
def truthy : Option String → Bool
  | some s => decide (s ≠ "")
  | none => false

/-- Filter stage of the list handler: with any query parameter present,
keep the documents satisfying every query entry. -/
def filterStage (params : Params) (items : List Obj) : List Obj :=
  if params.isEmpty then items
  else items.filter (fun item => params.all (fun p => evalFilter item p.1 p.2))

/-- The sort comparator from the list handler: a document missing the
sort field compares greater outright (direction not applied); two string
values use locale comparison scaled by the direction; otherwise the JS
relational comparison scaled by the direction. -/
def sortCmp (field : String) (ord : Int) (a b : Obj) : Int :=
  match a.get field, b.get field with
  | none, _ => 1
  | some _, none => -1
  | some av, some bv =>
    match av, bv with
    | JSValue.str sa, JSValue.str sb => localeCompare sa sb * ord
    | _, _ =>
      if jsLt av bv then -1 * ord else if jsLt bv av then 1 * ord else 0

/-- Insert an element into a list at the first position whose element
does not compare strictly below it. -/
def insertCmp (cmp : α → α → Int) (x : α) : List α → List α
  | [] => [x]
  | y :: ys => if cmp x y ≤ 0 then x :: y :: ys else y :: insertCmp cmp x ys

/-- Stable comparator sort, modelling Array.prototype.sort (stable per
the language standard). -/
def sortByCmp (cmp : α → α → Int) : List α → List α
  | [] => []
  | x :: xs => insertCmp cmp x (sortByCmp cmp xs)

/-- Sort stage: applied only when `_sort` is truthy; `_order` equal to
"desc" flips the direction, anything else is ascending. -/
def sortStage (params : Params) (items : List Obj) : List Obj :=
  match getParam params "_sort" with
  | some field =>
    if field = "" then items
    else
      let ord : Int := if getParam params "_order" = some "desc" then -1 else 1
      sortByCmp (sortCmp field ord) items
  | none => items

/-- Clamp a possibly negative index to the array as Array.prototype.slice
does: negative counts from the end, then the result is bounded by the
length. -/
def clampIndex (len : ℕ) (i : Int) : ℕ :=
  if i < 0 then (max ((len : Int) + i) 0).toNat else min i.toNat len

/-- Array.prototype.slice with optional end index. -/
def jsSlice (l : List α) (start : Int) (stop : Option Int) : List α :=
  let len := l.length
  let s := clampIndex len start
  let e := match stop with
           | none => len
           | some j => clampIndex len j
  (l.take e).drop s

/-- Pagination stage: entered when `_offset` or `_limit` is truthy as a
string; the offset falls back to 0 when unparsable; a nonzero parsed
limit slices a window, else a nonzero offset drops a prefix. -/
def paginateStage (params : Params) (items : List Obj) : List Obj :=
  if truthy (getParam params "_offset") || truthy (getParam params "_limit") then
    let offset : Int := ((getParam params "_offset").bind jsParseInt).getD 0
    match (getParam params "_limit").bind jsParseInt with
    | some n =>
      if n = 0 then (if offset = 0 then items else jsSlice items offset none)
      else jsSlice items offset (some (offset + n))
    | none => if offset = 0 then items else jsSlice items offset none
  else items

/-- The full query engine over an in-memory document list, as the list
handler runs it: filter, then sort, then paginate. -/
def queryApply (params : Params) (items : List Obj) : List Obj :=
  paginateStage params (sortStage params (filterStage params items))

/-- Non-empty slash-separated segments of a request path. -/
def pathSegments (p : String) : List String :=
  ((splitOnChar '/' p.data).map (fun l => String.mk l)).filter (fun s => s ≠ "")

/-- Hexadecimal digit test used by the identifier shape check. -/
def isHexDigit (c : Char) : Bool :=
  c.isDigit || ('a' ≤ c && c ≤ 'f') || ('A' ≤ c && c ≤ 'F')

/-- The identifier shape test of the GET handler: five hyphen-separated
hex groups of lengths 8-4-4-4-12, case-insensitive. -/
def isUuid (s : String) : Bool :=
  match splitOnChar '-' s.data with
  | [a, b, c, d, e] =>
    a.length == 8 && b.length == 4 && c.length == 4 && d.length == 4 &&
    e.length == 12 && a.all isHexDigit && b.all isHexDigit &&
    c.all isHexDigit && d.all isHexDigit && e.all isHexDigit
  | _ => false

/-- Identifier resolution shared by the PUT, PATCH and DELETE handlers:
with no non-empty segment the request is rejected (modelled as none, the
400 outcome); otherwise the last segment is popped as the identifier and
the rest form the collection path. -/
def resolveWrite (p : String) : Option (List String × String) :=
  let parts := pathSegments p
  match parts.getLast? with
  | none => none
  | some ident => some (parts.dropLast, ident)

/-- The document built by the POST handler: generated identifier first,
then the body's fields spread over it, then the creation timestamp. -/
def postData (ident : String) (body : Obj) (now : String) : Obj :=
  (Obj.spread [("id", JSValue.str ident)] body).set "createdAt" (JSValue.str now)

/-- The document built by the PUT handler: current content, body fields
spread over it, then the identifier and update timestamp forced. -/
def putData (currentData body : Obj) (ident now : String) : Obj :=
  ((Obj.spread currentData body).set "id" (JSValue.str ident)).set
    "updatedAt" (JSValue.str now)

/-- The document built by the PATCH handler; the source block is
identical to the PUT one. -/
def patchData (currentData body : Obj) (ident now : String) : Obj :=
  ((Obj.spread currentData body).set "id" (JSValue.str ident)).set
    "updatedAt" (JSValue.str now)

/-- One write applied after creation: a replace or a partial update, each
carrying its body and timestamp. -/
inductive WriteOp where
  | put : Obj → String → WriteOp
  | patch : Obj → String → WriteOp

/-- Body carried by a write. -/
def WriteOp.body : WriteOp → Obj
  | .put b _ => b
  | .patch b _ => b

/-- Apply one write to the stored document. -/
def applyWrite (ident : String) (doc : Obj) : WriteOp → Obj
  | .put body now => putData doc body ident now
  | .patch body now => patchData doc body ident now

/-- Apply a sequence of writes in order. -/
def applyWrites (ident : String) (doc : Obj) (ops : List WriteOp) : Obj :=
  ops.foldl (applyWrite ident) doc

/-- Declarative reading of one token against one character: a literal
matches itself, the dot matches anything. -/
def RTokMatches : RTok → Char → Prop
  | RTok.lit c, x => x = c
  | RTok.dot, _ => True

/-- Declarative reading of a token segment against a whole character
list: tokens and characters in lockstep. -/
def SegMatches : List RTok → List Char → Prop
  | [], w => w = []
  | t :: ts, w => ∃ x w2, w = x :: w2 ∧ RTokMatches t x ∧ SegMatches ts w2

/-- Specification-side reading of the wildcard pattern, unanchored: the
token segments match pieces of the value in order, each after the end of
the previous one, with arbitrary characters around them. -/
def SegsOccurR : List (List RTok) → List Char → Prop
  | [], _ => True
  | s :: rest, w =>
    ∃ u m w2, w = u ++ m ++ w2 ∧ SegMatches s m ∧ SegsOccurR rest w2

/-- Specification-side tail of an anchored glob after the first star:
`.* s1 .* s2 … sn` with the final segment flush with the end. -/
def GlobMidR : List (List RTok) → List Char → Prop
  | [], w => w = []
  | s :: rest, w =>
    ∃ u m w2, w = u ++ m ++ w2 ∧ SegMatches s m ∧ GlobMidR rest w2

/-- Specification-side anchored glob match, the claim's reading: the
first segment starts the value and the last segment ends it. -/
def GlobAnchoredR : List (List RTok) → List Char → Prop
  | [], w => w = []
  | s :: rest, w => ∃ m w2, w = m ++ w2 ∧ SegMatches s m ∧ GlobMidR rest w2

/-- Whether an optional field value is present and a string; the sort
comparator's locale branch applies exactly to such pairs. -/
def isStrVal : Option JSValue → Bool
  | some (JSValue.str _) => true
  | _ => false

/-! Lemmas about property lookup, assignment and spread. -/

theorem Obj.get_nil (k : String) : Obj.get [] k = none := rfl

theorem Obj.get_cons (p : String × JSValue) (o : Obj) (k : String) :
    Obj.get (p :: o) k = if p.1 = k then some p.2 else Obj.get o k := by
  by_cases h : p.1 = k <;> simp [Obj.get, List.find?_cons, h]

theorem Obj.get_eq_none_iff (o : Obj) (k : String) :
    o.get k = none ↔ ∀ p ∈ o, p.1 ≠ k := by
  induction o with
  | nil => simp [Obj.get_nil]
  | cons p t ih =>
    rw [Obj.get_cons]
    by_cases h : p.1 = k <;> simp [h, ih]

theorem Obj.get_map_set_of_mem (o : Obj) (k : String) (v : JSValue)
    (h : ∃ p ∈ o, p.1 = k) :
    Obj.get (o.map (fun p => if p.1 = k then (k, v) else p)) k = some v := by
  induction o with
  | nil => simp at h
  | cons q t ih =>
    by_cases hq : q.1 = k
    · simp [hq, Obj.get_cons]
    · rcases h with ⟨p, hp, hpk⟩
      rcases List.mem_cons.mp hp with h1 | h1
      · exact absurd (h1 ▸ hpk) hq
      · simpa [hq, Obj.get_cons] using ih ⟨p, h1, hpk⟩

theorem Obj.get_map_set_ne (o : Obj) (k : String) (v : JSValue)
    (k' : String) (hk : k' ≠ k) :
    Obj.get (o.map (fun p => if p.1 = k then (k, v) else p)) k' = o.get k' := by
  induction o with
  | nil => simp [Obj.get_nil]
  | cons q t ih =>
    by_cases hq : q.1 = k
    · simp [hq, Obj.get_cons, Ne.symm hk, ih]
    · simp [hq, Obj.get_cons, ih]

theorem Obj.get_append (o₁ o₂ : Obj) (k : String) :
    Obj.get (o₁ ++ o₂) k =
      match o₁.get k with
      | some v => some v
      | none => o₂.get k := by
  induction o₁ with
  | nil => simp [Obj.get_nil]
  | cons q t ih =>
    by_cases hq : q.1 = k <;> simp [Obj.get_cons, hq, ih]

theorem Obj.get_set_self (o : Obj) (k : String) (v : JSValue) :
    (o.set k v).get k = some v := by
  unfold Obj.set
  by_cases h : o.any (fun p => decide (p.1 = k))
  · rw [if_pos h]
    refine Obj.get_map_set_of_mem o k v ?_
    rcases List.any_eq_true.mp h with ⟨p, hp, hpk⟩
    exact ⟨p, hp, by simpa using hpk⟩
  · rw [if_neg h, Obj.get_append]
    have hnone : o.get k = none := by
      rw [Obj.get_eq_none_iff]
      intro p hp
      by_contra hc
      exact h (List.any_eq_true.mpr ⟨p, hp, by simpa using hc⟩)
    simp [hnone, Obj.get_cons]

theorem Obj.get_set_ne (o : Obj) (k : String) (v : JSValue)
    (k' : String) (hk : k' ≠ k) :
    (o.set k v).get k' = o.get k' := by
  unfold Obj.set
  by_cases h : o.any (fun p => decide (p.1 = k))
  · rw [if_pos h]
    exact Obj.get_map_set_ne o k v k' hk
  · rw [if_neg h, Obj.get_append]
    cases hg : o.get k' with
    | some v' => rfl
    | none => simp [Obj.get_nil, Obj.get_cons, Ne.symm hk]

theorem Obj.spread_nil (a : Obj) : Obj.spread a [] = a := rfl

theorem Obj.spread_cons (a : Obj) (p : String × JSValue) (b : Obj) :
    Obj.spread a (p :: b) = Obj.spread (a.set p.1 p.2) b := rfl

theorem Obj.get_spread_of_none (a b : Obj) (k : String)
    (hb : b.get k = none) : (Obj.spread a b).get k = a.get k := by
  induction b generalizing a with
  | nil => rw [Obj.spread_nil]
  | cons p t ih =>
    rw [Obj.get_cons] at hb
    by_cases hp : p.1 = k
    · simp [hp] at hb
    · rw [Obj.spread_cons, ih _ (by simpa [hp] using hb),
        Obj.get_set_ne _ _ _ _ (fun h => hp h.symm)]

theorem Obj.wf_cons (p : String × JSValue) (o : Obj) :
    Obj.wf (p :: o) ↔ (∀ q ∈ o, q.1 ≠ p.1) ∧ Obj.wf o := by
  unfold Obj.wf
  rw [List.map_cons, List.nodup_cons]
  constructor
  · rintro ⟨h1, h2⟩
    refine ⟨fun q hq hqe => h1 ?_, h2⟩
    exact List.mem_map.mpr ⟨q, hq, hqe⟩
  · rintro ⟨h1, h2⟩
    refine ⟨fun hc => ?_, h2⟩
    rcases List.mem_map.mp hc with ⟨q, hq, hqe⟩
    exact h1 q hq hqe

theorem Obj.get_spread_of_some (a b : Obj) (k : String) (v : JSValue)
    (hwf : b.wf) (hb : b.get k = some v) :
    (Obj.spread a b).get k = some v := by
  induction b generalizing a with
  | nil => simp [Obj.get_nil] at hb
  | cons p t ih =>
    rcases (Obj.wf_cons p t).mp hwf with ⟨hnd, hwt⟩
    rw [Obj.get_cons] at hb
    by_cases hp : p.1 = k
    · have ht : Obj.get t k = none := by
        rw [Obj.get_eq_none_iff]
        intro q hq
        exact fun hqk => hnd q hq (by rw [hqk, hp])
      rw [Obj.spread_cons, Obj.get_spread_of_none _ _ _ ht, hp,
        Obj.get_set_self]
      simpa [hp] using hb
    · rw [Obj.spread_cons]
      exact ih _ hwt (by simpa [hp] using hb)

/-! Shared facts about the PUT and PATCH merge result. -/

theorem updGet_id (current body : Obj) (ident now : String) :
    Obj.get (putData current body ident now) "id" = some (JSValue.str ident) := by
  unfold putData
  rw [Obj.get_set_ne _ _ _ _ (by decide), Obj.get_set_self]

theorem updGet_updatedAt (current body : Obj) (ident now : String) :
    Obj.get (putData current body ident now) "updatedAt"
      = some (JSValue.str now) := by
  unfold putData
  rw [Obj.get_set_self]

theorem updGet_of_some (current body : Obj) (ident now k : String)
    (v : JSValue) (h1 : k ≠ "id") (h2 : k ≠ "updatedAt")
    (hwf : Obj.wf body) (hb : Obj.get body k = some v) :
    Obj.get (putData current body ident now) k = some v := by
  unfold putData
  rw [Obj.get_set_ne _ _ _ _ h2, Obj.get_set_ne _ _ _ _ h1,
    Obj.get_spread_of_some _ _ _ _ hwf hb]

theorem updGet_of_none (current body : Obj) (ident now k : String)
    (h1 : k ≠ "id") (h2 : k ≠ "updatedAt") (hb : Obj.get body k = none) :
    Obj.get (putData current body ident now) k = Obj.get current k := by
  unfold putData
  rw [Obj.get_set_ne _ _ _ _ h2, Obj.get_set_ne _ _ _ _ h1,
    Obj.get_spread_of_none _ _ _ hb]

/-- Claim C1 counterexample: a POST body that itself carries an `id`
field wins over the freshly generated identifier in the stored and
returned document, because the body is spread after the identifier. -/
theorem c1_counterexample :
    Obj.get (postData "3f8a2c10-4b5d-4e6f-8a9b-0c1d2e3f4a5b"
        [("id", JSValue.str "intruder")] "2024-01-01T00:00:00.000Z") "id"
      ≠ some (JSValue.str "3f8a2c10-4b5d-4e6f-8a9b-0c1d2e3f4a5b") := by
  decide

/-- Claim C1, amended: the created document's `id` equals the generated
identifier whenever the submitted body has no `id` field of its own; a
body-supplied `id`, instead of being ignored, overwrites the generated
one in the stored and returned content. -/
theorem c1_amended (ident : String) (body : Obj) (now : String) :
    (Obj.get body "id" = none →
      Obj.get (postData ident body now) "id" = some (JSValue.str ident))
    ∧ (∀ v, Obj.wf body → Obj.get body "id" = some v →
      Obj.get (postData ident body now) "id" = some v) := by
  constructor
  · intro hnone
    unfold postData
    rw [Obj.get_set_ne _ _ _ _ (by decide), Obj.get_spread_of_none _ _ _ hnone,
      Obj.get_cons]
    simp
  · intro v hwf hv
    unfold postData
    rw [Obj.get_set_ne _ _ _ _ (by decide),
      Obj.get_spread_of_some _ _ _ _ hwf hv]

/-- Witness for the amended claim C1 at a concrete creation. -/
theorem c1_witness :
    Obj.get (postData "u1" [("name", JSValue.str "X")] "t0") "id"
      = some (JSValue.str "u1") :=
  (c1_amended "u1" [("name", JSValue.str "X")] "t0").1 (by decide)

/-- Claim C2: replace and partial update both overlay the body's fields
on the previous content, force the identifier and the update timestamp,
and keep every other field absent from the body unchanged. -/
theorem c2_put_patch_merge (current body : Obj) (ident now : String)
    (hwf : Obj.wf body) :
    (Obj.get (putData current body ident now) "id" = some (JSValue.str ident)
      ∧ Obj.get (putData current body ident now) "updatedAt"
          = some (JSValue.str now)
      ∧ (∀ k v, k ≠ "id" → k ≠ "updatedAt" → Obj.get body k = some v →
          Obj.get (putData current body ident now) k = some v)
      ∧ (∀ k, k ≠ "id" → k ≠ "updatedAt" → Obj.get body k = none →
          Obj.get (putData current body ident now) k = Obj.get current k))
    ∧ (Obj.get (patchData current body ident now) "id"
          = some (JSValue.str ident)
      ∧ Obj.get (patchData current body ident now) "updatedAt"
          = some (JSValue.str now)
      ∧ (∀ k v, k ≠ "id" → k ≠ "updatedAt" → Obj.get body k = some v →
          Obj.get (patchData current body ident now) k = some v)
      ∧ (∀ k, k ≠ "id" → k ≠ "updatedAt" → Obj.get body k = none →
          Obj.get (patchData current body ident now) k = Obj.get current k)) := by
  have h : Obj.get (putData current body ident now) "id"
        = some (JSValue.str ident)
      ∧ Obj.get (putData current body ident now) "updatedAt"
          = some (JSValue.str now)
      ∧ (∀ k v, k ≠ "id" → k ≠ "updatedAt" → Obj.get body k = some v →
          Obj.get (putData current body ident now) k = some v)
      ∧ (∀ k, k ≠ "id" → k ≠ "updatedAt" → Obj.get body k = none →
          Obj.get (putData current body ident now) k = Obj.get current k) :=
    ⟨updGet_id current body ident now, updGet_updatedAt current body ident now,
      fun k v h1 h2 hb => updGet_of_some current body ident now k v h1 h2 hwf hb,
      fun k h1 h2 hb => updGet_of_none current body ident now k h1 h2 hb⟩
  exact ⟨h, h⟩

/-- Witness for claim C2: a field absent from the PUT body survives. -/
theorem c2_witness :
    Obj.get (putData [("name", JSValue.str "X"), ("price", JSValue.num ⟨10, 0⟩)]
        [("name", JSValue.str "Y")] "i1" "t1") "price"
      = Obj.get [("name", JSValue.str "X"), ("price", JSValue.num ⟨10, 0⟩)]
          "price" :=
  (c2_put_patch_merge [("name", JSValue.str "X"), ("price", JSValue.num ⟨10, 0⟩)]
      [("name", JSValue.str "Y")] "i1" "t1" (by decide)).1.2.2.2
    "price" (by decide) (by decide) (by decide)

/-- Updates whose bodies avoid `createdAt` leave it untouched. -/
theorem applyWrites_createdAt (ident : String) (ops : List WriteOp) :
    ∀ doc : Obj, (∀ op ∈ ops, Obj.get op.body "createdAt" = none) →
      Obj.get (applyWrites ident doc ops) "createdAt"
        = Obj.get doc "createdAt" := by
  induction ops with
  | nil => intro doc _; rfl
  | cons op t ih =>
    intro doc hops
    have hstep : Obj.get (applyWrite ident doc op) "createdAt"
        = Obj.get doc "createdAt" := by
      cases op with
      | put body now =>
        exact updGet_of_none doc body ident now "createdAt" (by decide)
          (by decide) (hops _ (List.mem_cons_self _ _))
      | patch body now =>
        exact updGet_of_none doc body ident now "createdAt" (by decide)
          (by decide) (hops _ (List.mem_cons_self _ _))
    calc Obj.get (applyWrites ident doc (op :: t)) "createdAt"
        = Obj.get (applyWrites ident (applyWrite ident doc op) t)
            "createdAt" := rfl
      _ = Obj.get (applyWrite ident doc op) "createdAt" :=
          ih _ (fun o ho => hops o (List.mem_cons_of_mem _ ho))
      _ = Obj.get doc "createdAt" := hstep

/-- Claim C9 counterexample: a PATCH whose body carries `createdAt`
overwrites the creation timestamp. -/
theorem c9_counterexample :
    Obj.get (applyWrites "i" (postData "i" [] "t0")
        [WriteOp.patch [("createdAt", JSValue.str "1999-01-01")] "t1"])
      "createdAt" ≠ some (JSValue.str "t0") := by
  decide

/-- Claim C9, amended: across any sequence of replaces and partial
updates whose bodies do not themselves carry a `createdAt` field, the
document keeps the creation timestamp assigned by the create operation. -/
theorem c9_amended (ident : String) (body0 : Obj) (t0 : String)
    (ops : List WriteOp)
    (hops : ∀ op ∈ ops, Obj.get op.body "createdAt" = none) :
    Obj.get (applyWrites ident (postData ident body0 t0) ops) "createdAt"
      = some (JSValue.str t0) := by
  rw [applyWrites_createdAt ident ops _ hops]
  unfold postData
  exact Obj.get_set_self _ _ _

/-- Witness for the amended claim C9 at a concrete write sequence. -/
theorem c9_witness :
    Obj.get (applyWrites "i" (postData "i" [("name", JSValue.str "X")] "t0")
        [WriteOp.put [("name", JSValue.str "Y")] "t1",
         WriteOp.patch [("price", JSValue.num ⟨5, 0⟩)] "t2"]) "createdAt"
      = some (JSValue.str "t0") :=
  c9_amended "i" [("name", JSValue.str "X")] "t0"
    [WriteOp.put [("name", JSValue.str "Y")] "t1",
     WriteOp.patch [("price", JSValue.num ⟨5, 0⟩)] "t2"] (by decide)

/-! The unanchored wildcard search agrees with the declarative
token-segments-in-order reading. -/

theorem SegMatches_length : ∀ (s : List RTok) (m : List Char),
    SegMatches s m → m.length = s.length := by
  intro s
  induction s with
  | nil =>
    intro m h
    rw [show m = [] from h]
    rfl
  | cons t ts ih =>
    intro m h
    rcases h with ⟨x, w2, rfl, -, h2⟩
    simp [ih w2 h2]

theorem segPrefixMatch_sound : ∀ (s : List RTok) (w r : List Char),
    segPrefixMatch s w = some r → ∃ m, w = m ++ r ∧ SegMatches s m := by
  intro s
  induction s with
  | nil =>
    intro w r h
    cases h
    exact ⟨[], rfl, rfl⟩
  | cons t ts ih =>
    intro w r h
    cases t with
    | lit c =>
      cases w with
      | nil => cases h
      | cons x xs =>
        unfold segPrefixMatch at h
        by_cases hxc : x = c
        · rw [if_pos hxc] at h
          rcases ih xs r h with ⟨m, hm, hsm⟩
          exact ⟨x :: m, by simp [hm], ⟨x, m, rfl, hxc, hsm⟩⟩
        · rw [if_neg hxc] at h
          cases h
    | dot =>
      cases w with
      | nil => cases h
      | cons x xs =>
        rcases ih xs r h with ⟨m, hm, hsm⟩
        exact ⟨x :: m, by simp [hm], ⟨x, m, rfl, trivial, hsm⟩⟩

theorem segPrefixMatch_complete : ∀ (s : List RTok) (m r : List Char),
    SegMatches s m → segPrefixMatch s (m ++ r) = some r := by
  intro s
  induction s with
  | nil =>
    intro m r h
    rw [show m = [] from h]
    rfl
  | cons t ts ih =>
    intro m r h
    rcases h with ⟨x, w2, rfl, hx, h2⟩
    cases t with
    | lit c =>
      have hxc : x = c := hx
      show segPrefixMatch (RTok.lit c :: ts) (x :: (w2 ++ r)) = some r
      unfold segPrefixMatch
      rw [if_pos hxc]
      exact ih w2 r h2
    | dot =>
      exact ih w2 r h2

theorem firstSegTail_sound (s : List RTok) :
    ∀ w r, firstSegTail s w = some r →
      ∃ u m, w = u ++ m ++ r ∧ SegMatches s m := by
  intro w
  induction w with
  | nil =>
    intro r h
    rcases segPrefixMatch_sound s [] r h with ⟨m, hm, hsm⟩
    exact ⟨[], m, by simp [← hm], hsm⟩
  | cons c t ih =>
    intro r h
    unfold firstSegTail at h
    cases hsp : segPrefixMatch s (c :: t) with
    | some r' =>
      rw [hsp] at h
      cases h
      rcases segPrefixMatch_sound s (c :: t) r hsp with ⟨m, hm, hsm⟩
      exact ⟨[], m, by simp [hm], hsm⟩
    | none =>
      rw [hsp] at h
      rcases ih r h with ⟨u, m, hu, hsm⟩
      exact ⟨c :: u, m, by simp [hu], hsm⟩

theorem firstSegTail_complete (s : List RTok) :
    ∀ u m v w, w = u ++ m ++ v → SegMatches s m →
      ∃ r, firstSegTail s w = some r ∧ ∃ u2, r = u2 ++ v := by
  intro u
  induction u with
  | nil =>
    intro m v w hw hsm
    simp only [List.nil_append] at hw
    cases w with
    | nil =>
      rcases List.append_eq_nil.mp hw.symm with ⟨hm, hv⟩
      subst hm
      subst hv
      exact ⟨[], segPrefixMatch_complete s [] [] hsm, [], rfl⟩
    | cons c t =>
      have hspc : segPrefixMatch s (c :: t) = some v := by
        rw [show (c :: t : List Char) = m ++ v from hw]
        exact segPrefixMatch_complete s m v hsm
      refine ⟨v, ?_, [], rfl⟩
      unfold firstSegTail
      rw [hspc]
  | cons c u' ih =>
    intro m v w hw hsm
    have hw' : w = c :: (u' ++ m ++ v) := by simp [hw]
    subst hw'
    unfold firstSegTail
    cases hsp : segPrefixMatch s (c :: (u' ++ m ++ v)) with
    | some r' =>
      rcases segPrefixMatch_sound s _ r' hsp with ⟨m2, hm2, hsm2⟩
      refine ⟨r', rfl, (c :: (u' ++ m)).drop m2.length, ?_⟩
      have hr' : r' = (c :: (u' ++ m ++ v)).drop m2.length := by
        rw [hm2, List.drop_left]
      rw [hr']
      have hassoc : c :: (u' ++ m ++ v) = (c :: (u' ++ m)) ++ v := by simp
      rw [hassoc, List.drop_append_eq_append_drop]
      have hlen2 : m2.length = s.length := SegMatches_length s m2 hsm2
      have hlenm : m.length = s.length := SegMatches_length s m hsm
      have hz : m2.length - (c :: (u' ++ m)).length = 0 := by
        simp [List.length_cons]
        omega
      rw [hz]
      simp
    | none =>
      rcases ih m v (u' ++ m ++ v) rfl hsm with ⟨r, hr, u2, hu2⟩
      exact ⟨r, hr, u2, hu2⟩

theorem SegsOccurR_extend (segs : List (List RTok)) (u2 v : List Char)
    (h : SegsOccurR segs v) : SegsOccurR segs (u2 ++ v) := by
  cases segs with
  | nil => trivial
  | cons s rest =>
    rcases h with ⟨u, m, w2, hv, hsm, hocc⟩
    exact ⟨u2 ++ u, m, w2, by simp [hv], hsm, hocc⟩

theorem matchRSegs_iff (segs : List (List RTok)) :
    ∀ w, matchRSegs segs w = true ↔ SegsOccurR segs w := by
  induction segs with
  | nil =>
    intro w
    simp [matchRSegs, SegsOccurR]
  | cons s rest ih =>
    intro w
    constructor
    · intro h
      unfold matchRSegs at h
      cases hf : firstSegTail s w with
      | none =>
        rw [hf] at h
        cases h
      | some w2 =>
        rw [hf] at h
        rcases firstSegTail_sound s w w2 hf with ⟨u, m, hu, hsm⟩
        exact ⟨u, m, w2, hu, hsm, (ih w2).mp h⟩
    · rintro ⟨u, m, w2, hw, hsm, hocc⟩
      rcases firstSegTail_complete s u m w2 w hw hsm with ⟨r, hr, u2, hu2⟩
      unfold matchRSegs
      rw [hr]
      exact (ih r).mpr (hu2 ▸ SegsOccurR_extend rest u2 w2 hocc)

/-- Claim C3 counterexample: the filter `ab*` keeps a document whose
field value is `xabc`, although the anchored glob reading rejects it —
the wildcard test is an unanchored substring-style search. -/
theorem c3_counterexample :
    evalFilter [("name", JSValue.str "xabc")] "name" "ab*" = true
    ∧ ¬ GlobAnchoredR (globTokens (lowerStr "ab*").data)
        (lowerStr "xabc").data := by
  constructor
  · decide
  · have hsegs : globTokens (lowerStr "ab*").data
        = [[RTok.lit 'a', RTok.lit 'b'], []] := by decide
    have hval : (lowerStr "xabc").data = ['x', 'a', 'b', 'c'] := by decide
    rw [hsegs, hval]
    rintro ⟨m, w2, heq, hsm, -⟩
    rcases hsm with ⟨x, m2, rfl, hx, -⟩
    have hx' : x = 'a' := hx
    rw [hx'] at heq
    simp at heq

/-- Claim C3, amended: for a filter value containing `*`, carrying no
operator head, and built only of characters the glob model covers
(star, dot, and regex-literal characters — the other metacharacters
keep their regex meaning in the program, or make the regex constructor
throw into the 500 handler, and line-terminator-free field values,
which the un-flagged dot cannot match), a document is kept iff it has
the field and the tokenized lowercased pattern — dot matching any one
character, star any sequence — occurs in order inside the lowercased
field value: an unanchored, substring-style match rather than a
full-value anchored one. -/
theorem c3_amended (item : Obj) (key value : String) (v : JSValue)
    (hres : ¬(key = "_limit" ∨ key = "_offset" ∨ key = "_sort" ∨ key = "_order"))
    (hget : item.get key = some v)
    (hstar : (lowerStr value).data.contains '*' = true)
    (h1 : (lowerStr value).data.take 2 ≠ ['>', '='])
    (h2 : (lowerStr value).data.take 2 ≠ ['<', '='])
    (h3 : (lowerStr value).data.take 1 ≠ ['>'])
    (h4 : (lowerStr value).data.take 1 ≠ ['<'])
    (h5 : (lowerStr value).data.take 2 ≠ ['!', '='])
    (hplain : ∀ c ∈ (lowerStr value).data, plainGlobChar c = true)
    (hnoterm : ∀ c ∈ (lowerStr (jsString v)).data, isLineTerm c = false) :
    evalFilter item key value = true ↔
      SegsOccurR (globTokens (lowerStr value).data)
        (lowerStr (jsString v)).data := by
  unfold evalFilter
  rw [if_neg hres, hget]
  dsimp only
  rw [if_neg h1, if_neg h2, if_neg h3, if_neg h4, if_neg h5, if_pos hstar,
    matchRSegs_iff]

/-- Witness for the amended claim C3 at a concrete document and filter
with a dot in the pattern, matched as "any single character". -/
theorem c3_witness :
    evalFilter [("name", JSValue.str "Casa Azul")] "name" "c.sa*" = true := by
  refine (c3_amended [("name", JSValue.str "Casa Azul")] "name" "c.sa*"
      (JSValue.str "Casa Azul") (by decide) (by decide) (by decide)
      (by decide) (by decide) (by decide) (by decide) (by decide)
      (by decide) (by decide)).mpr ?_
  exact (matchRSegs_iff (globTokens (lowerStr "c.sa*").data)
      (lowerStr (jsString (JSValue.str "Casa Azul"))).data).mp (by decide)

/-- Claim C5: under each numeric operator head, taken in the checked
order, an unparsable filter literal excludes the document, an unparsable
field value excludes the document, and with both parsed the document is
kept exactly when the decimal comparison holds. -/
theorem c5_numeric_ops (item : Obj) (key value : String) (v : JSValue)
    (hres : ¬(key = "_limit" ∨ key = "_offset" ∨ key = "_sort" ∨ key = "_order"))
    (hget : item.get key = some v) :
    ((lowerStr value).data.take 2 = ['>', '='] →
      (jsParseFloat (String.mk ((lowerStr value).data.drop 2)) = none →
        evalFilter item key value = false)
      ∧ (jsParseFloat (jsString v) = none → evalFilter item key value = false)
      ∧ (∀ f x, jsParseFloat (String.mk ((lowerStr value).data.drop 2)) = some f →
          jsParseFloat (jsString v) = some x →
          (evalFilter item key value = true ↔ decLE f x = true)))
    ∧ ((lowerStr value).data.take 2 ≠ ['>', '='] →
       (lowerStr value).data.take 2 = ['<', '='] →
      (jsParseFloat (String.mk ((lowerStr value).data.drop 2)) = none →
        evalFilter item key value = false)
      ∧ (jsParseFloat (jsString v) = none → evalFilter item key value = false)
      ∧ (∀ f x, jsParseFloat (String.mk ((lowerStr value).data.drop 2)) = some f →
          jsParseFloat (jsString v) = some x →
          (evalFilter item key value = true ↔ decLE x f = true)))
    ∧ ((lowerStr value).data.take 2 ≠ ['>', '='] →
       (lowerStr value).data.take 2 ≠ ['<', '='] →
       (lowerStr value).data.take 1 = ['>'] →
      (jsParseFloat (String.mk ((lowerStr value).data.drop 1)) = none →
        evalFilter item key value = false)
      ∧ (jsParseFloat (jsString v) = none → evalFilter item key value = false)
      ∧ (∀ f x, jsParseFloat (String.mk ((lowerStr value).data.drop 1)) = some f →
          jsParseFloat (jsString v) = some x →
          (evalFilter item key value = true ↔ decLT f x = true)))
    ∧ ((lowerStr value).data.take 2 ≠ ['>', '='] →
       (lowerStr value).data.take 2 ≠ ['<', '='] →
       (lowerStr value).data.take 1 ≠ ['>'] →
       (lowerStr value).data.take 1 = ['<'] →
      (jsParseFloat (String.mk ((lowerStr value).data.drop 1)) = none →
        evalFilter item key value = false)
      ∧ (jsParseFloat (jsString v) = none → evalFilter item key value = false)
      ∧ (∀ f x, jsParseFloat (String.mk ((lowerStr value).data.drop 1)) = some f →
          jsParseFloat (jsString v) = some x →
          (evalFilter item key value = true ↔ decLT x f = true))) := by
  refine ⟨?_, ?_, ?_, ?_⟩
  · intro hop
    have hev : evalFilter item key value
        = (match jsParseFloat (String.mk ((lowerStr value).data.drop 2)),
                 jsParseFloat (jsString v) with
           | some f, some x => decLE f x
           | _, _ => false) := by
      unfold evalFilter
      rw [if_neg hres, hget]
      dsimp only
      rw [if_pos hop]
    refine ⟨fun hf => ?_, fun hx => ?_, fun f x hf hx => ?_⟩
    · rw [hev, hf]
    · rw [hev, hx]
      cases jsParseFloat (String.mk ((lowerStr value).data.drop 2)) <;> rfl
    · rw [hev, hf, hx]
  · intro hge hop
    have hev : evalFilter item key value
        = (match jsParseFloat (String.mk ((lowerStr value).data.drop 2)),
                 jsParseFloat (jsString v) with
           | some f, some x => decLE x f
           | _, _ => false) := by
      unfold evalFilter
      rw [if_neg hres, hget]
      dsimp only
      rw [if_neg hge, if_pos hop]
    refine ⟨fun hf => ?_, fun hx => ?_, fun f x hf hx => ?_⟩
    · rw [hev, hf]
    · rw [hev, hx]
      cases jsParseFloat (String.mk ((lowerStr value).data.drop 2)) <;> rfl
    · rw [hev, hf, hx]
  · intro hge hle hop
    have hev : evalFilter item key value
        = (match jsParseFloat (String.mk ((lowerStr value).data.drop 1)),
                 jsParseFloat (jsString v) with
           | some f, some x => decLT f x
           | _, _ => false) := by
      unfold evalFilter
      rw [if_neg hres, hget]
      dsimp only
      rw [if_neg hge, if_neg hle, if_pos hop]
    refine ⟨fun hf => ?_, fun hx => ?_, fun f x hf hx => ?_⟩
    · rw [hev, hf]
    · rw [hev, hx]
      cases jsParseFloat (String.mk ((lowerStr value).data.drop 1)) <;> rfl
    · rw [hev, hf, hx]
  · intro hge hle hgt hop
    have hev : evalFilter item key value
        = (match jsParseFloat (String.mk ((lowerStr value).data.drop 1)),
                 jsParseFloat (jsString v) with
           | some f, some x => decLT x f
           | _, _ => false) := by
      unfold evalFilter
      rw [if_neg hres, hget]
      dsimp only
      rw [if_neg hge, if_neg hle, if_neg hgt, if_pos hop]
    refine ⟨fun hf => ?_, fun hx => ?_, fun f x hf hx => ?_⟩
    · rw [hev, hf]
    · rw [hev, hx]
      cases jsParseFloat (String.mk ((lowerStr value).data.drop 1)) <;> rfl
    · rw [hev, hf, hx]

/-- Witness for claim C5: a greater-or-equal filter kept at a concrete
document whose field parses to a larger decimal. -/
theorem c5_witness :
    evalFilter [("p", JSValue.str "10")] "p" ">=5" = true := by
  have h := (c5_numeric_ops [("p", JSValue.str "10")] "p" ">=5"
      (JSValue.str "10") (by decide) (by decide)).1 (by decide)
  exact (h.2.2 ⟨5, 0⟩ ⟨10, 0⟩ (by decide) (by decide)).mpr (by decide)

/-! The comparator sort: permutation facts and the placement of
documents missing the sort field. -/

theorem insertCmp_perm {α : Type} (cmp : α → α → Int) (x : α) (l : List α) :
    List.Perm (insertCmp cmp x l) (x :: l) := by
  induction l with
  | nil => exact List.Perm.refl _
  | cons y ys ih =>
    unfold insertCmp
    by_cases h : cmp x y ≤ 0
    · rw [if_pos h]
    · rw [if_neg h]
      exact (ih.cons y).trans (List.Perm.swap x y ys)

theorem sortByCmp_perm {α : Type} (cmp : α → α → Int) (l : List α) :
    List.Perm (sortByCmp cmp l) l := by
  induction l with
  | nil => exact List.Perm.refl _
  | cons x xs ih =>
    exact (insertCmp_perm cmp x (sortByCmp cmp xs)).trans (ih.cons x)

theorem mem_insertCmp {α : Type} (cmp : α → α → Int) (x z : α) (l : List α) :
    z ∈ insertCmp cmp x l ↔ z = x ∨ z ∈ l := by
  rw [(insertCmp_perm cmp x l).mem_iff, List.mem_cons]

theorem insertCmp_pairwise_class {α : Type} (cmp : α → α → Int) (p : α → Bool)
    (h1 : ∀ a b, p a = false → 0 < cmp a b)
    (h2 : ∀ a b, p a = true → p b = false → cmp a b ≤ 0)
    (x : α) (l : List α)
    (hl : l.Pairwise (fun a b => p a = false → p b = false)) :
    (insertCmp cmp x l).Pairwise (fun a b => p a = false → p b = false) := by
  induction l with
  | nil => exact List.pairwise_singleton _ x
  | cons y ys ih =>
    rcases List.pairwise_cons.mp hl with ⟨hy, hys⟩
    unfold insertCmp
    by_cases hxy : cmp x y ≤ 0
    · rw [if_pos hxy]
      refine List.pairwise_cons.mpr ⟨?_, hl⟩
      intro z _ hpx
      exact absurd (h1 x y hpx) (by omega)
    · rw [if_neg hxy]
      refine List.pairwise_cons.mpr ⟨?_, ih hys⟩
      intro z hz hpy
      rcases (mem_insertCmp cmp x z ys).mp hz with rfl | hz'
      · cases hpx : p z with
        | false => rfl
        | true => exact absurd (h2 z y hpx hpy) hxy
      · exact hy z hz' hpy

theorem sortByCmp_pairwise_class {α : Type} (cmp : α → α → Int) (p : α → Bool)
    (h1 : ∀ a b, p a = false → 0 < cmp a b)
    (h2 : ∀ a b, p a = true → p b = false → cmp a b ≤ 0)
    (l : List α) :
    (sortByCmp cmp l).Pairwise (fun a b => p a = false → p b = false) := by
  induction l with
  | nil => exact List.Pairwise.nil
  | cons x xs ih => exact insertCmp_pairwise_class cmp p h1 h2 x _ ih

theorem sortCmp_of_missing (field : String) (ord : Int) (a b : Obj)
    (ha : Obj.get a field = none) : sortCmp field ord a b = 1 := by
  unfold sortCmp
  rw [ha]

theorem sortCmp_of_having_missing (field : String) (ord : Int) (a b : Obj)
    (av : JSValue) (ha : Obj.get a field = some av)
    (hb : Obj.get b field = none) : sortCmp field ord a b = -1 := by
  unfold sortCmp
  rw [ha, hb]

theorem jsSlice_sublist {α : Type} (l : List α) (s : Int) (e : Option Int) :
    List.Sublist (jsSlice l s e) l := by
  unfold jsSlice
  exact (List.drop_sublist _ _).trans (List.take_sublist _ _)

theorem paginateStage_sublist (params : Params) (l : List Obj) :
    List.Sublist (paginateStage params l) l := by
  unfold paginateStage
  split
  · dsimp only
    split
    · split
      · split
        · exact List.Sublist.refl l
        · exact jsSlice_sublist l _ none
      · exact jsSlice_sublist l _ _
    · split
      · exact List.Sublist.refl l
      · exact jsSlice_sublist l _ none
  · exact List.Sublist.refl l

/-- Claim C6: when sorting is requested, every document missing the sort
field ends up after every document that has it, in either direction, all
the way through the returned page. -/
theorem c6_missing_sort_last (params : Params) (items : List Obj)
    (field : String) (hs : getParam params "_sort" = some field)
    (hne : field ≠ "") :
    (queryApply params items).Pairwise
      (fun a b => Obj.get a field = none → Obj.get b field = none) := by
  unfold queryApply
  have hsort : sortStage params (filterStage params items)
      = sortByCmp
          (sortCmp field
            (if getParam params "_order" = some "desc" then -1 else 1))
          (filterStage params items) := by
    unfold sortStage
    rw [hs]
    dsimp only
    rw [if_neg hne]
  rw [hsort]
  have hpair := sortByCmp_pairwise_class
    (sortCmp field (if getParam params "_order" = some "desc" then -1 else 1))
    (fun d => (Obj.get d field).isSome)
    (fun a b ha => by
      rw [sortCmp_of_missing field _ a b (Option.not_isSome_iff_eq_none.mp
        (by simp [ha]))]
      omega)
    (fun a b ha hb => by
      rcases Option.isSome_iff_exists.mp ha with ⟨av, hav⟩
      rw [sortCmp_of_having_missing field _ a b av hav
        (Option.not_isSome_iff_eq_none.mp (by simp [hb]))]
      omega)
    (filterStage params items)
  have hsub := List.Pairwise.sublist
    (paginateStage_sublist params
      (sortByCmp
        (sortCmp field (if getParam params "_order" = some "desc" then -1 else 1))
        (filterStage params items))) hpair
  refine hsub.imp ?_
  intro a b h hnone
  cases hbv : Obj.get b field with
  | none => rfl
  | some bv =>
    have hfb : (Obj.get b field).isSome = false := h (by simp [hnone])
    rw [hbv] at hfb
    simp at hfb

/-- Witness for claim C6 at a concrete sorted listing. -/
theorem c6_witness :
    (queryApply [("_sort", "a")]
        [[("b", JSValue.str "x")], [("a", JSValue.str "y")]]).Pairwise
      (fun o1 o2 => Obj.get o1 "a" = none → Obj.get o2 "a" = none) :=
  c6_missing_sort_last [("_sort", "a")]
    [[("b", JSValue.str "x")], [("a", JSValue.str "y")]] "a"
    (by decide) (by decide)

/-! Pagination. -/

theorem jsParseInt_ne_empty (s : String) (n : Int)
    (h : jsParseInt s = some n) : s ≠ "" := by
  intro he
  rw [he] at h
  simp [jsParseInt] at h

/-- Claim C7 counterexample: with `_limit=0` the page is not clipped to
zero documents; the single document survives, against the stated count
formula. -/
theorem c7_counterexample :
    (paginateStage [("_limit", "0")] [([] : Obj)]).length = 1
    ∧ (max 0 (min 0 ((1 : Int) - 0))).toNat ≠ 1 := by
  decide

/-- Claim C7, amended: for a limit of at least 1 and a nonnegative
offset, the returned page has exactly `max 0 (min L (N - O))` documents
and is a sublist (order preserved) of the incoming sequence. -/
theorem c7_amended (params : Params) (l : List Obj) (sL sO : String)
    (L O : Int)
    (hlim : getParam params "_limit" = some sL)
    (hoff : getParam params "_offset" = some sO)
    (hL : jsParseInt sL = some L) (hO : jsParseInt sO = some O)
    (hL1 : 1 ≤ L) (hO0 : 0 ≤ O) :
    (paginateStage params l).length
      = (max 0 (min L ((l.length : Int) - O))).toNat
    ∧ List.Sublist (paginateStage params l) l := by
  have hsL : sL ≠ "" := jsParseInt_ne_empty sL L hL
  have ht : truthy (getParam params "_limit") = true := by
    rw [hlim]
    simp [truthy, hsL]
  have heq : paginateStage params l = jsSlice l O (some (O + L)) := by
    unfold paginateStage
    rw [if_pos (by rw [ht, Bool.or_true])]
    rw [hoff, hlim]
    simp only [Option.some_bind]
    rw [hL, hO]
    simp only [Option.getD_some]
    rw [if_neg (by omega : ¬ L = 0)]
  rw [heq]
  constructor
  · unfold jsSlice clampIndex
    dsimp only
    rw [if_neg (by omega : ¬ O < 0), if_neg (by omega : ¬ O + L < 0)]
    rw [List.length_drop, List.length_take]
    omega
  · exact jsSlice_sublist l O (some (O + L))

/-- Witness for the amended claim C7 at a concrete page. -/
theorem c7_witness :
    (paginateStage [("_limit", "2"), ("_offset", "1")]
        [([] : Obj), [], []]).length
      = (max 0 (min 2 ((3 : Int) - 1))).toNat
    ∧ List.Sublist
        (paginateStage [("_limit", "2"), ("_offset", "1")]
          [([] : Obj), [], []])
        [([] : Obj), [], []] := by
  have h3 : (([([] : Obj), [], []] : List Obj).length : Int) = 3 := by decide
  have h := c7_amended [("_limit", "2"), ("_offset", "1")]
    [([] : Obj), [], []] "2" "1" 2 1 (by decide) (by decide) (by decide)
    (by decide) (by decide) (by decide)
  rw [h3] at h
  exact h

/-- Claim C10: a `_limit` that parses to zero is falsy, so the limit is
ignored: a nonzero offset yields the tail slice from the offset, and a
zero offset leaves the whole sequence. -/
theorem c10_limit_zero (params : Params) (l : List Obj) (sL : String)
    (hlim : getParam params "_limit" = some sL)
    (hL : jsParseInt sL = some 0) :
    paginateStage params l =
      (if ((getParam params "_offset").bind jsParseInt).getD 0 = 0 then l
       else jsSlice l (((getParam params "_offset").bind jsParseInt).getD 0)
         none) := by
  have hsL : sL ≠ "" := jsParseInt_ne_empty sL 0 hL
  have ht : truthy (getParam params "_limit") = true := by
    rw [hlim]
    simp [truthy, hsL]
  unfold paginateStage
  rw [if_pos (by rw [ht, Bool.or_true])]
  rw [hlim]
  simp only [Option.some_bind]
  rw [hL]
  dsimp only
  rw [if_pos rfl]

/-- Witness for claim C10: limit zero with a nonzero offset drops the
prefix only. -/
theorem c10_witness :
    paginateStage [("_limit", "0"), ("_offset", "1")] [([] : Obj), []] =
      (if ((getParam [("_limit", "0"), ("_offset", "1")] "_offset").bind
            jsParseInt).getD 0 = 0 then [([] : Obj), []]
       else jsSlice [([] : Obj), []]
         (((getParam [("_limit", "0"), ("_offset", "1")] "_offset").bind
            jsParseInt).getD 0) none) :=
  c10_limit_zero [("_limit", "0"), ("_offset", "1")] [([] : Obj), []] "0"
    (by decide) (by decide)

/-! Write-path identifier resolution. -/

/-- Claim C4 counterexample: the bare collection path `/items` — whose
last segment is not identifier-shaped — is not rejected with the
MissingIdentifier error; the handler pops `items` itself as the
identifier. -/
theorem c4_counterexample :
    resolveWrite "/items" = some ([], "items") ∧ isUuid "items" = false := by
  decide

/-- Claim C4, amended: PUT, PATCH and DELETE reject with the
MissingIdentifier error exactly when the path has no non-empty segment at
all; on any other path the last segment is treated as the identifier,
whatever its shape, so a bare collection path falls through to the
document lookup instead. -/
theorem c4_amended (p : String) :
    (resolveWrite p = none ↔ pathSegments p = [])
    ∧ (∀ x, (pathSegments p).getLast? = some x →
        resolveWrite p = some ((pathSegments p).dropLast, x)) := by
  unfold resolveWrite
  dsimp only
  cases h : (pathSegments p).getLast? with
  | none =>
    refine ⟨by simp [List.getLast?_eq_none_iff.mp h], ?_⟩
    intro x hx
    cases hx
  | some y =>
    refine ⟨?_, ?_⟩
    · simp only [reduceCtorEq, false_iff]
      intro hc
      rw [hc] at h
      simp at h
    · intro x hx
      cases hx
      rfl

/-- Witness for the amended claim C4 at a concrete nested path. -/
theorem c4_witness :
    resolveWrite "/casas/abc" = some (["casas"], "abc") :=
  (c4_amended "/casas/abc").2 "abc" (by decide)

/-! Lexicographic comparison: sign antisymmetry, transitivity, and
separation, the order facts behind the ascending/descending relation. -/

theorem listCmp_anti : ∀ a b : List Char, listCmp b a = -listCmp a b := by
  intro a
  induction a with
  | nil =>
    intro b
    cases b <;> simp [listCmp]
  | cons x xs ih =>
    intro b
    cases b with
    | nil => simp [listCmp]
    | cons y ys =>
      unfold listCmp
      rcases lt_trichotomy x y with h | h | h
      · rw [if_neg (lt_asymm h), if_pos h, if_pos h]
        omega
      · subst h
        rw [if_neg (lt_irrefl x), if_neg (lt_irrefl x), if_neg (lt_irrefl x),
          if_neg (lt_irrefl x)]
        exact ih ys
      · rw [if_pos h, if_pos h, if_neg (lt_asymm h)]

theorem listCmp_eq_zero : ∀ a b : List Char, listCmp a b = 0 → a = b := by
  intro a
  induction a with
  | nil =>
    intro b h
    cases b with
    | nil => rfl
    | cons y ys => simp [listCmp] at h
  | cons x xs ih =>
    intro b h
    cases b with
    | nil => simp [listCmp] at h
    | cons y ys =>
      unfold listCmp at h
      rcases lt_trichotomy x y with h1 | h1 | h1
      · rw [if_pos h1] at h
        omega
      · subst h1
        rw [if_neg (lt_irrefl x), if_neg (lt_irrefl x)] at h
        rw [ih ys h]
      · rw [if_neg (lt_asymm h1), if_pos h1] at h
        omega

theorem listCmp_trans_le :
    ∀ a b c : List Char, listCmp a b ≤ 0 → listCmp b c ≤ 0 →
      listCmp a c ≤ 0 := by
  intro a
  induction a with
  | nil =>
    intro b c _ _
    cases c <;> simp [listCmp]
  | cons x xs ih =>
    intro b c h1 h2
    cases b with
    | nil => simp [listCmp] at h1
    | cons y ys =>
      cases c with
      | nil => simp [listCmp] at h2
      | cons z zs =>
        unfold listCmp at h1 h2 ⊢
        rcases lt_trichotomy x y with hxy | hxy | hxy
        · rcases lt_trichotomy y z with hyz | hyz | hyz
          · rw [if_pos (lt_trans hxy hyz)]
            omega
          · subst hyz
            rw [if_pos hxy]
            omega
          · rw [if_neg (lt_asymm hyz), if_pos hyz] at h2
            omega
        · subst hxy
          rw [if_neg (lt_irrefl x), if_neg (lt_irrefl x)] at h1
          rcases lt_trichotomy x z with hyz | hyz | hyz
          · rw [if_pos hyz]
            omega
          · subst hyz
            rw [if_neg (lt_irrefl x), if_neg (lt_irrefl x)] at h2 ⊢
            exact ih ys zs h1 h2
          · rw [if_neg (lt_asymm hyz), if_pos hyz] at h2
            omega
        · rw [if_neg (lt_asymm hxy), if_pos hxy] at h1
          omega

/-! Sortedness of the comparator sort, with the order facts needed only
on the elements being sorted, and uniqueness of a tie-free sorted
permutation. -/

theorem insertCmp_sorted {α : Type} (cmp : α → α → Int) (x : α)
    (l : List α)
    (htot : ∀ b ∈ l, 0 < cmp x b → cmp b x ≤ 0)
    (htr : ∀ a ∈ l, ∀ b ∈ l, cmp x a ≤ 0 → cmp a b ≤ 0 → cmp x b ≤ 0)
    (hs : l.Pairwise (fun a b => cmp a b ≤ 0)) :
    (insertCmp cmp x l).Pairwise (fun a b => cmp a b ≤ 0) := by
  induction l with
  | nil => exact List.pairwise_singleton _ x
  | cons y ys ih =>
    rcases List.pairwise_cons.mp hs with ⟨hy, hys⟩
    unfold insertCmp
    by_cases hxy : cmp x y ≤ 0
    · rw [if_pos hxy]
      refine List.pairwise_cons.mpr ⟨?_, hs⟩
      intro z hz
      rcases List.mem_cons.mp hz with rfl | hz'
      · exact hxy
      · exact htr y (List.mem_cons_self y ys) z (List.mem_cons_of_mem y hz')
          hxy (hy z hz')
    · rw [if_neg hxy]
      refine List.pairwise_cons.mpr ⟨?_, ?_⟩
      · intro z hz
        rcases (mem_insertCmp cmp x z ys).mp hz with rfl | hz'
        · exact htot y (List.mem_cons_self y ys) (by omega)
        · exact hy z hz'
      · exact ih (fun b hb => htot b (List.mem_cons_of_mem y hb))
          (fun a ha b hb => htr a (List.mem_cons_of_mem y ha)
            b (List.mem_cons_of_mem y hb)) hys

theorem sortByCmp_sorted {α : Type} (cmp : α → α → Int) (l : List α)
    (hanti : ∀ a ∈ l, ∀ b ∈ l, cmp b a = -cmp a b)
    (htr : ∀ a ∈ l, ∀ b ∈ l, ∀ c ∈ l,
      cmp a b ≤ 0 → cmp b c ≤ 0 → cmp a c ≤ 0) :
    (sortByCmp cmp l).Pairwise (fun a b => cmp a b ≤ 0) := by
  induction l with
  | nil => exact List.Pairwise.nil
  | cons x xs ih =>
    have hmem : ∀ b ∈ sortByCmp cmp xs, b ∈ xs :=
      fun b hb => (sortByCmp_perm cmp xs).mem_iff.mp hb
    refine insertCmp_sorted cmp x (sortByCmp cmp xs) ?_ ?_ ?_
    · intro b hb hlt
      have hb' := List.mem_cons_of_mem x (hmem b hb)
      have := hanti x (List.mem_cons_self x xs) b hb'
      omega
    · intro a ha b hb h1 h2
      exact htr x (List.mem_cons_self x xs)
        a (List.mem_cons_of_mem x (hmem a ha))
        b (List.mem_cons_of_mem x (hmem b hb)) h1 h2
    · exact ih
        (fun a ha b hb => hanti a (List.mem_cons_of_mem x ha)
          b (List.mem_cons_of_mem x hb))
        (fun a ha b hb c hc => htr a (List.mem_cons_of_mem x ha)
          b (List.mem_cons_of_mem x hb) c (List.mem_cons_of_mem x hc))

theorem sorted_perm_unique {α : Type} (cmp : α → α → Int) :
    ∀ l1 l2 : List α, List.Perm l1 l2 →
      l1.Pairwise (fun a b => cmp a b ≤ 0) →
      l2.Pairwise (fun a b => cmp a b ≤ 0) →
      (∀ a ∈ l1, ∀ b ∈ l1, cmp a b ≤ 0 → cmp b a ≤ 0 → a = b) →
      l1 = l2 := by
  intro l1
  induction l1 with
  | nil =>
    intro l2 hp _ _ _
    exact (List.Perm.eq_nil hp.symm).symm
  | cons a t1 ih =>
    intro l2 hp hs1 hs2 hanti
    cases l2 with
    | nil => cases List.Perm.eq_nil hp
    | cons b t2 =>
      have hab : a = b := by
        by_cases h : a = b
        · exact h
        · have ha2 : a ∈ b :: t2 := hp.mem_iff.mp (List.mem_cons_self a t1)
          have hb1 : b ∈ a :: t1 := hp.mem_iff.mpr (List.mem_cons_self b t2)
          have ha2' : a ∈ t2 := by
            rcases List.mem_cons.mp ha2 with h' | h'
            · exact absurd h' h
            · exact h'
          have hb1' : b ∈ t1 := by
            rcases List.mem_cons.mp hb1 with h' | h'
            · exact absurd h'.symm h
            · exact h'
          have hba : cmp b a ≤ 0 := (List.pairwise_cons.mp hs2).1 a ha2'
          have hab' : cmp a b ≤ 0 := (List.pairwise_cons.mp hs1).1 b hb1'
          exact hanti a (List.mem_cons_self a t1) b hb1 hab' hba
      subst hab
      have hp' : List.Perm t1 t2 := hp.cons_inv
      have ht : t1 = t2 := ih t2 hp' (List.pairwise_cons.mp hs1).2
        (List.pairwise_cons.mp hs2).2
        (fun x hx y hy => hanti x (List.mem_cons_of_mem a hx)
          y (List.mem_cons_of_mem a hy))
      rw [ht]

theorem pairwise_forall_of_symm_on {α : Type} (R : α → α → Prop)
    (l : List α) (hsym : ∀ a ∈ l, ∀ b ∈ l, R a b → R b a)
    (h : l.Pairwise R) :
    ∀ a ∈ l, ∀ b ∈ l, a ≠ b → R a b := by
  induction l with
  | nil =>
    intro a ha
    simp at ha
  | cons x t ih =>
    rcases List.pairwise_cons.mp h with ⟨hx, ht⟩
    intro a ha b hb hab
    rcases List.mem_cons.mp ha with rfl | ha' <;>
      rcases List.mem_cons.mp hb with rfl | hb'
    · exact absurd rfl hab
    · exact hx b hb'
    · exact hsym b hb a ha (hx a ha')
    · exact ih (fun p hp q hq => hsym p (List.mem_cons_of_mem x hp)
        q (List.mem_cons_of_mem x hq)) ht a ha' b hb' hab

theorem sortCmp_str (field : String) (ord : Int) (a b : Obj)
    (sa sb : String) (ha : Obj.get a field = some (JSValue.str sa))
    (hb : Obj.get b field = some (JSValue.str sb)) :
    sortCmp field ord a b = localeCompare sa sb * ord := by
  unfold sortCmp
  rw [ha, hb]

theorem exists_of_isStrVal (o : Option JSValue) (h : isStrVal o = true) :
    ∃ s, o = some (JSValue.str s) := by
  cases o with
  | none => simp [isStrVal] at h
  | some v =>
    cases v with
    | str s => exact ⟨s, rfl⟩
    | num d => simp [isStrVal] at h
    | bool b => simp [isStrVal] at h
    | null => simp [isStrVal] at h

theorem sortStage_eq (params : Params) (l : List Obj) (field : String)
    (hs : getParam params "_sort" = some field) (hf : field ≠ "") :
    sortStage params l
      = sortByCmp
          (sortCmp field
            (if getParam params "_order" = some "desc" then -1 else 1)) l := by
  unfold sortStage
  rw [hs]
  dsimp only
  rw [if_neg hf]

/-- Claim C8 counterexample: two distinct documents tied on the sort
field: the stable descending sort keeps their arrival order, so the
reversal swaps them, while the ascending sort keeps them in place. -/
theorem c8_counterexample :
    (sortStage [("_sort", "a"), ("_order", "desc")]
        [[("a", JSValue.str "x"), ("id", JSValue.str "1")],
         [("a", JSValue.str "x"), ("id", JSValue.str "2")]]).reverse
      ≠ sortStage [("_sort", "a"), ("_order", "asc")]
        [[("a", JSValue.str "x"), ("id", JSValue.str "1")],
         [("a", JSValue.str "x"), ("id", JSValue.str "2")]] := by
  decide

/-- Claim C8, amended: when every document carries a string value in the
sort field and no two documents tie under the comparator, sorting
descending and reversing equals sorting ascending.  Ties break the
equality because the stable sort preserves arrival order on both sides
while the reversal flips it. -/
theorem c8_amended (field : String) (l : List Obj) (hf : field ≠ "")
    (hstr : ∀ d ∈ l, isStrVal (Obj.get d field) = true)
    (hne : List.Pairwise (fun a b => sortCmp field 1 a b ≠ 0) l) :
    (sortStage [("_sort", field), ("_order", "desc")] l).reverse
      = sortStage [("_sort", field), ("_order", "asc")] l := by
  have hs1 : getParam [(("_sort" : String), field), ("_order", "desc")]
      "_sort" = some field := rfl
  have hs2 : getParam [(("_sort" : String), field), ("_order", "asc")]
      "_sort" = some field := rfl
  have ho1 : getParam [(("_sort" : String), field), ("_order", "desc")]
      "_order" = some "desc" := rfl
  have ho2 : getParam [(("_sort" : String), field), ("_order", "asc")]
      "_order" = some "asc" := rfl
  have hdesc : sortStage [("_sort", field), ("_order", "desc")] l
      = sortByCmp (sortCmp field (-1)) l := by
    rw [sortStage_eq _ l field hs1 hf, ho1, if_pos rfl]
  have hasc : sortStage [("_sort", field), ("_order", "asc")] l
      = sortByCmp (sortCmp field 1) l := by
    rw [sortStage_eq _ l field hs2 hf, ho2, if_neg (by decide)]
  rw [hdesc, hasc]
  have hvals : ∀ a ∈ l, ∃ sa, Obj.get a field = some (JSValue.str sa) :=
    fun a ha => exists_of_isStrVal _ (hstr a ha)
  have key : ∀ a ∈ l, ∀ b ∈ l,
      sortCmp field 1 a b = -(sortCmp field 1 b a)
      ∧ sortCmp field (-1) a b = -(sortCmp field 1 a b) := by
    intro a ha b hb
    obtain ⟨sa, hsa⟩ := hvals a ha
    obtain ⟨sb, hsb⟩ := hvals b hb
    rw [sortCmp_str field 1 a b sa sb hsa hsb,
      sortCmp_str field 1 b a sb sa hsb hsa,
      sortCmp_str field (-1) a b sa sb hsa hsb]
    unfold localeCompare
    have hanti := listCmp_anti sa.data sb.data
    constructor <;> omega
  have htrA : ∀ a ∈ l, ∀ b ∈ l, ∀ c ∈ l,
      sortCmp field 1 a b ≤ 0 → sortCmp field 1 b c ≤ 0 →
        sortCmp field 1 a c ≤ 0 := by
    intro a ha b hb c hc h1 h2
    obtain ⟨sa, hsa⟩ := hvals a ha
    obtain ⟨sb, hsb⟩ := hvals b hb
    obtain ⟨sc, hsc⟩ := hvals c hc
    rw [sortCmp_str field 1 a b sa sb hsa hsb] at h1
    rw [sortCmp_str field 1 b c sb sc hsb hsc] at h2
    rw [sortCmp_str field 1 a c sa sc hsa hsc]
    unfold localeCompare at h1 h2 ⊢
    have := listCmp_trans_le sa.data sb.data sc.data (by omega) (by omega)
    omega
  have hsorted_asc : (sortByCmp (sortCmp field 1) l).Pairwise
      (fun a b => sortCmp field 1 a b ≤ 0) :=
    sortByCmp_sorted _ l (fun a ha b hb => (key b hb a ha).1) htrA
  have hsorted_desc : (sortByCmp (sortCmp field (-1)) l).Pairwise
      (fun a b => sortCmp field (-1) a b ≤ 0) := by
    refine sortByCmp_sorted _ l ?_ ?_
    · intro a ha b hb
      have k1 := (key b hb a ha).2
      have k2 := (key a ha b hb).2
      have k3 := (key b hb a ha).1
      omega
    · intro a ha b hb c hc h1 h2
      have k1 := (key a ha b hb).2
      have k2 := (key b hb c hc).2
      have k3 := (key a ha c hc).2
      have h4 := htrA c hc b hb a ha
        (by have := (key b hb c hc).1; omega)
        (by have := (key a ha b hb).1; omega)
      have k4 := (key a ha c hc).1
      omega
  have hrev : ((sortByCmp (sortCmp field (-1)) l).reverse).Pairwise
      (fun a b => sortCmp field 1 a b ≤ 0) := by
    rw [List.pairwise_reverse]
    refine List.Pairwise.imp_of_mem ?_ hsorted_desc
    intro a b ha hb h
    have ha' := (sortByCmp_perm (sortCmp field (-1)) l).mem_iff.mp ha
    have hb' := (sortByCmp_perm (sortCmp field (-1)) l).mem_iff.mp hb
    have k1 := (key a ha' b hb').2
    have k2 := (key b hb' a ha').1
    omega
  have hsym : ∀ a ∈ l, ∀ b ∈ l,
      sortCmp field 1 a b ≠ 0 → sortCmp field 1 b a ≠ 0 := by
    intro a ha b hb h
    have := (key b hb a ha).1
    omega
  refine sorted_perm_unique (sortCmp field 1) _ _
    ?_ hrev hsorted_asc ?_
  · exact ((List.reverse_perm _).trans
      (sortByCmp_perm (sortCmp field (-1)) l)).trans
      (sortByCmp_perm (sortCmp field 1) l).symm
  · intro a ha b hb h1 h2
    have ha' : a ∈ l := (sortByCmp_perm (sortCmp field (-1)) l).mem_iff.mp
      (List.mem_reverse.mp ha)
    have hb' : b ∈ l := (sortByCmp_perm (sortCmp field (-1)) l).mem_iff.mp
      (List.mem_reverse.mp hb)
    by_cases hab : a = b
    · exact hab
    · have hk := (key b hb' a ha').1
      have h0 : sortCmp field 1 a b = 0 := by omega
      exact absurd h0
        (pairwise_forall_of_symm_on _ l hsym hne a ha' b hb' hab)

/-- Witness for the amended claim C8 at two documents with distinct
string sort values. -/
theorem c8_witness :
    (sortStage [("_sort", "a"), ("_order", "desc")]
        [[("a", JSValue.str "x")], [("a", JSValue.str "y")]]).reverse
      = sortStage [("_sort", "a"), ("_order", "asc")]
        [[("a", JSValue.str "x")], [("a", JSValue.str "y")]] :=
  c8_amended "a" [[("a", JSValue.str "x")], [("a", JSValue.str "y")]]
    (by decide) (by decide) (by decide)

end GenericRest
